import Mathlib

/-!
Verification of the tiling and scheduling engine in
`landscapist-transformation/src/main/cpp/TaskProcessor.cpp`,
`TaskProcessor.h`, `RenderScriptToolkit.h` and `Utils.h`.

The pure tile-partitioning code (`Task::setTiling`, `Task::processTile`,
`divideRoundingUp`) is embedded as Lean functions over `Nat`; the C++
`size_t`/`unsigned int` values involved never overflow for the inputs the
library accepts, except for the one documented wrap in the thread-count
heuristic, which is modelled explicitly modulo `2 ^ 32`.  The concurrent
scheduler (`TaskProcessor::doTask` / `processTilesOfWork` /
`waitForPoolWorkersToComplete`) is embedded as a small-step transition
system over the scheduler's mutex-protected state.
-/

namespace renderscript

/-- `Utils.h`, `divideRoundingUp`: `return a / b + (a % b == 0 ? 0 : 1);`. -/
def divideRoundingUp (a b : Nat) : Nat :=
  a / b + (if a % b = 0 then 0 else 1)

/-- `RenderScriptToolkit.h`, `struct Restriction`: the optional processing
sub-rectangle, fields in source order `startX, endX, startY, endY`. -/
structure Restriction where
  startX : Nat
  endX : Nat
  startY : Nat
  endY : Nat
deriving DecidableEq

/-- `TaskProcessor.h`, `class Task`: the geometry fields `mSizeX`, `mSizeY`,
`mVectorSize`, `mPrefersDataAsOneRow`, `mRestriction` fixed at construction.
(`mUsesSimd` and the buffer pointers play no role in the tiling claims.) -/
structure Task where
  sizeX : Nat
  sizeY : Nat
  vectorSize : Nat
  prefersDataAsOneRow : Bool
  restriction : Option Restriction
deriving DecidableEq

/-- The tiling state `mCellsPerTileX`, `mCellsPerTileY`, `mTilesPerRow`,
`mTilesPerColumn` that `Task::setTiling` stores in the `Task`. -/
structure Tiling where
  cellsPerTileX : Nat
  cellsPerTileY : Nat
  tilesPerRow : Nat
  tilesPerColumn : Nat
deriving DecidableEq

/-- The end-exclusive rectangle `(startX, startY, endX, endY)` handed to the
`processData` callback. -/
structure Rect where
  startX : Nat
  startY : Nat
  endX : Nat
  endY : Nat
deriving DecidableEq

/-- `TaskProcessor.cpp` line 39-47 (in `setTiling`): the number of cells to
process in X, `mSizeX` without a restriction, `endX - startX` with one. -/
def Task.cellsToProcessX (t : Task) : Nat :=
  match t.restriction with
  | none => t.sizeX
  | some r => r.endX - r.startX

/-- `TaskProcessor.cpp` line 39-47 (in `setTiling`): the number of cells to
process in Y. -/
def Task.cellsToProcessY (t : Task) : Nat :=
  match t.restriction with
  | none => t.sizeY
  | some r => r.endY - r.startY

/-- `TaskProcessor.cpp` line 31-34: the clamp
`targetTileSizeInBytes = max(1000u, targetTileSizeInBytes)` followed by
`targetCellsPerTile = targetTileSizeInBytes / cellSizeInBytes` with
`cellSizeInBytes = mVectorSize`. -/
def Task.targetCellsPerTile (t : Task) (targetTileSizeInBytes : Nat) : Nat :=
  max 1000 targetTileSizeInBytes / t.vectorSize

/-- `Task::setTiling` (`TaskProcessor.cpp` lines 29-62): computes the four
tiling fields and returns `mTilesPerRow * mTilesPerColumn`.  The stored
fields are returned alongside the count. -/
def Task.setTiling (t : Task) (targetTileSizeInBytes : Nat) : Tiling × Nat :=
  let targetCells := t.targetCellsPerTile targetTileSizeInBytes
  let tilesPerRow := divideRoundingUp t.cellsToProcessX targetCells
  let cellsPerTileX := divideRoundingUp t.cellsToProcessX tilesPerRow
  let targetRowsPerTile := divideRoundingUp targetCells cellsPerTileX
  let tilesPerColumn := divideRoundingUp t.cellsToProcessY targetRowsPerTile
  let cellsPerTileY := divideRoundingUp t.cellsToProcessY tilesPerColumn
  (⟨cellsPerTileX, cellsPerTileY, tilesPerRow, tilesPerColumn⟩,
   tilesPerRow * tilesPerColumn)

/-- `TaskProcessor.cpp` lines 66-80 (in `processTile`): the overall working
boundaries `startWorkX/Y`, `endWorkX/Y` — the whole grid without a
restriction, the restriction rectangle with one. -/
def Task.workRect (t : Task) : Rect :=
  match t.restriction with
  | none => ⟨0, 0, t.sizeX, t.sizeY⟩
  | some r => ⟨r.startX, r.startY, r.endX, r.endY⟩

/-- `TaskProcessor.cpp` lines 81-89 (in `processTile`): the true 2D rectangle
of tile `tileIndex`, before the optional one-row collapse:
`tileIndexY = tileIndex / mTilesPerRow`, `tileIndexX = tileIndex % mTilesPerRow`,
start cell at the working origin plus `tileIndexX * mCellsPerTileX` /
`tileIndexY * mCellsPerTileY`, end cell clipped by `min` against the working
rectangle.  `til` is the tiling state previously stored by `setTiling`. -/
def Task.tileRectWith (t : Task) (til : Tiling) (tileIndex : Nat) : Rect :=
  let tileIndexY := tileIndex / til.tilesPerRow
  let tileIndexX := tileIndex % til.tilesPerRow
  let startCellX := t.workRect.startX + tileIndexX * til.cellsPerTileX
  let startCellY := t.workRect.startY + tileIndexY * til.cellsPerTileY
  ⟨startCellX, startCellY,
   min (startCellX + til.cellsPerTileX) t.workRect.endX,
   min (startCellY + til.cellsPerTileY) t.workRect.endY⟩

/-- `TaskProcessor.cpp` lines 91-97 (in `processTile`): the rectangle actually
passed to `processData`.  When `mPrefersDataAsOneRow && startCellX == 0 &&
endCellX == mSizeX`, the tile is collapsed to one logical row
`(0, startCellY, mSizeX * (endCellY - startCellY), startCellY + 1)`;
otherwise the true rectangle is passed.  The `threadIndex` argument is
forwarded to `processData` unchanged and is omitted here. -/
def Task.processTile (t : Task) (til : Tiling) (tileIndex : Nat) : Rect :=
  let r := t.tileRectWith til tileIndex
  if t.prefersDataAsOneRow = true ∧ r.startX = 0 ∧ r.endX = t.sizeX then
    ⟨0, r.startY, t.sizeX * (r.endY - r.startY), r.startY + 1⟩
  else
    r

/-- Membership of cell `(x, y)` in an end-exclusive rectangle. -/
def inRect (r : Rect) (x y : Nat) : Prop :=
  r.startX ≤ x ∧ x < r.endX ∧ r.startY ≤ y ∧ y < r.endY

instance (r : Rect) (x y : Nat) : Decidable (inRect r x y) :=
  inferInstanceAs (Decidable (_ ∧ _ ∧ _ ∧ _))

/-- The restriction invariant documented in `TaskProcessor.h` and spec §3:
`startX < endX <= sizeX`, `startY < endY <= sizeY` (asserted, caller
validated). -/
def Restriction.wellFormed (r : Restriction) (sizeX sizeY : Nat) : Prop :=
  r.startX < r.endX ∧ r.endX ≤ sizeX ∧ r.startY < r.endY ∧ r.endY ≤ sizeY

instance (r : Restriction) (sizeX sizeY : Nat) :
    Decidable (r.wellFormed sizeX sizeY) :=
  inferInstanceAs (Decidable (_ ∧ _ ∧ _ ∧ _))

/-- The documented preconditions of `Task` (`TaskProcessor.h` lines 105-112:
`sizeX` and `sizeY` greater than 0, `vectorSize` between 1 and 4, restriction
validated by the caller). -/
def Task.valid (t : Task) : Prop :=
  1 ≤ t.sizeX ∧ 1 ≤ t.sizeY ∧ 1 ≤ t.vectorSize ∧ t.vectorSize ≤ 4 ∧
    t.restriction.elim True (fun r => r.wellFormed t.sizeX t.sizeY)

instance optionElimDecidable {α : Type} (o : Option α) (b : Prop)
    (f : α → Prop) [hb : Decidable b] [hf : (a : α) → Decidable (f a)] :
    Decidable (o.elim b f) :=
  match o with
  | none => hb
  | some a => hf a

instance (t : Task) : Decidable t.valid :=
  inferInstanceAs (Decidable (_ ∧ _ ∧ _ ∧ _ ∧ _))

/-! ### Basic facts about `divideRoundingUp` -/

theorem divideRoundingUp_eq_ceil (a b : Nat) (hb : 0 < b) :
    divideRoundingUp a b = (a + b - 1) / b := by
  unfold divideRoundingUp
  rcases Nat.eq_zero_or_pos (a % b) with h | h
  · obtain ⟨q, rfl⟩ := Nat.dvd_of_mod_eq_zero h
    rw [if_pos h, Nat.mul_div_cancel_left q hb,
      Nat.add_sub_assoc (by omega : 1 ≤ b) (b * q),
      Nat.mul_add_div hb, Nat.div_eq_of_lt (by omega)]
  · have hd := Nat.div_add_mod a b
    have hrb : a % b < b := Nat.mod_lt a hb
    have hm : b * (a / b + 1) = b * (a / b) + b := by ring
    have h1 : a + b - 1 = b * (a / b + 1) + (a % b - 1) := by omega
    rw [if_neg (by omega), h1, Nat.mul_add_div hb,
      Nat.div_eq_of_lt (by omega : a % b - 1 < b)]

theorem divideRoundingUp_le_iff (a b c : Nat) (hb : 0 < b) :
    divideRoundingUp a b ≤ c ↔ a ≤ b * c := by
  rw [divideRoundingUp_eq_ceil a b hb, ← Nat.lt_add_one_iff,
    Nat.div_lt_iff_lt_mul hb]
  have h1 : (c + 1) * b = c * b + b := by ring
  have h2 : b * c = c * b := Nat.mul_comm b c
  omega

theorem lt_divideRoundingUp_iff (a b c : Nat) (hb : 0 < b) :
    c < divideRoundingUp a b ↔ b * c < a := by
  have h := divideRoundingUp_le_iff a b c hb
  omega

theorem divideRoundingUp_pos (a b : Nat) (ha : 0 < a) (hb : 0 < b) :
    0 < divideRoundingUp a b := by
  have h := lt_divideRoundingUp_iff a b 0 hb
  rw [Nat.mul_zero] at h
  exact h.2 ha

theorem divideRoundingUp_one (a : Nat) : divideRoundingUp a 1 = a := by
  simp [divideRoundingUp, Nat.mod_one]

/-- The inequalities that make the per-axis tile layout of `setTiling` an
exact cover: with `n = divideRoundingUp W k` tiles of `c = divideRoundingUp
W n` cells each, the last tile starts inside `[0, W)` and the `n` tiles
together reach at least `W`. -/
theorem tiling_bounds (W k : Nat) (hW : 0 < W) (hk : 0 < k) :
    0 < divideRoundingUp W k ∧
    0 < divideRoundingUp W (divideRoundingUp W k) ∧
    (divideRoundingUp W k - 1) * divideRoundingUp W (divideRoundingUp W k) < W ∧
    W ≤ divideRoundingUp W k * divideRoundingUp W (divideRoundingUp W k) := by
  have hn0 : 0 < divideRoundingUp W k := divideRoundingUp_pos W k hW hk
  have hc0 : 0 < divideRoundingUp W (divideRoundingUp W k) :=
    divideRoundingUp_pos W _ hW hn0
  have hWnc : W ≤ divideRoundingUp W k * divideRoundingUp W (divideRoundingUp W k) :=
    (divideRoundingUp_le_iff W (divideRoundingUp W k) _ hn0).1 (Nat.le_refl _)
  have hWkn : W ≤ k * divideRoundingUp W k :=
    (divideRoundingUp_le_iff W k _ hk).1 (Nat.le_refl _)
  have hck : divideRoundingUp W (divideRoundingUp W k) ≤ k :=
    (divideRoundingUp_le_iff W (divideRoundingUp W k) k hn0).2
      (by rw [Nat.mul_comm]; exact hWkn)
  have hlk : k * (divideRoundingUp W k - 1) < W :=
    (lt_divideRoundingUp_iff W k _ hk).1 (by omega)
  have hlast : (divideRoundingUp W k - 1) * divideRoundingUp W (divideRoundingUp W k) < W := by
    have h1 : (divideRoundingUp W k - 1) * divideRoundingUp W (divideRoundingUp W k) ≤
        (divideRoundingUp W k - 1) * k :=
      Nat.mul_le_mul (Nat.le_refl _) hck
    have h2 : (divideRoundingUp W k - 1) * k = k * (divideRoundingUp W k - 1) :=
      Nat.mul_comm _ _
    omega
  exact ⟨hn0, hc0, hlast, hWnc⟩

/-- Uniqueness of the 1-dimensional tile containing a cell: if
`i * c ≤ x < (i + 1) * c` then `i = x / c`. -/
theorem interval_unique (c x i : Nat) (h1 : i * c ≤ x) (h2 : x < (i + 1) * c) :
    i = x / c := by
  exact (Nat.div_eq_of_lt_le h1 h2).symm

/-! ### Unfolding lemmas for `setTiling` and `tileRectWith` -/

theorem setTiling_tilesPerRow (t : Task) (tts : Nat) :
    (t.setTiling tts).1.tilesPerRow =
      divideRoundingUp t.cellsToProcessX (t.targetCellsPerTile tts) := rfl

theorem setTiling_cellsPerTileX (t : Task) (tts : Nat) :
    (t.setTiling tts).1.cellsPerTileX =
      divideRoundingUp t.cellsToProcessX ((t.setTiling tts).1.tilesPerRow) := rfl

theorem setTiling_tilesPerColumn (t : Task) (tts : Nat) :
    (t.setTiling tts).1.tilesPerColumn =
      divideRoundingUp t.cellsToProcessY
        (divideRoundingUp (t.targetCellsPerTile tts)
          ((t.setTiling tts).1.cellsPerTileX)) := rfl

theorem setTiling_cellsPerTileY (t : Task) (tts : Nat) :
    (t.setTiling tts).1.cellsPerTileY =
      divideRoundingUp t.cellsToProcessY ((t.setTiling tts).1.tilesPerColumn) := rfl

theorem setTiling_count (t : Task) (tts : Nat) :
    (t.setTiling tts).2 =
      (t.setTiling tts).1.tilesPerRow * (t.setTiling tts).1.tilesPerColumn := rfl

theorem tileRectWith_startX (t : Task) (til : Tiling) (i : Nat) :
    (t.tileRectWith til i).startX =
      t.workRect.startX + (i % til.tilesPerRow) * til.cellsPerTileX := rfl

theorem tileRectWith_startY (t : Task) (til : Tiling) (i : Nat) :
    (t.tileRectWith til i).startY =
      t.workRect.startY + (i / til.tilesPerRow) * til.cellsPerTileY := rfl

theorem tileRectWith_endX (t : Task) (til : Tiling) (i : Nat) :
    (t.tileRectWith til i).endX =
      min ((t.tileRectWith til i).startX + til.cellsPerTileX) t.workRect.endX := rfl

theorem tileRectWith_endY (t : Task) (til : Tiling) (i : Nat) :
    (t.tileRectWith til i).endY =
      min ((t.tileRectWith til i).startY + til.cellsPerTileY) t.workRect.endY := rfl

/-! ### Consequences of the `Task` preconditions -/

theorem targetCellsPerTile_pos (t : Task) (tts : Nat) (h1 : 1 ≤ t.vectorSize)
    (h4 : t.vectorSize ≤ 4) : 0 < t.targetCellsPerTile tts :=
  Nat.div_pos (le_trans h4 (le_trans (by omega) (Nat.le_max_left 1000 tts))) h1

theorem cellsToProcessX_pos (t : Task) (hv : t.valid) : 0 < t.cellsToProcessX := by
  obtain ⟨sx, sy, v, pr, rr⟩ := t
  obtain ⟨hx, -, -, -, hres⟩ := hv
  cases rr with
  | none => exact hx
  | some r =>
    simp only [Option.elim, Restriction.wellFormed] at hres
    simp only [Task.cellsToProcessX]
    omega

theorem cellsToProcessY_pos (t : Task) (hv : t.valid) : 0 < t.cellsToProcessY := by
  obtain ⟨sx, sy, v, pr, rr⟩ := t
  obtain ⟨-, hy, -, -, hres⟩ := hv
  cases rr with
  | none => exact hy
  | some r =>
    simp only [Option.elim, Restriction.wellFormed] at hres
    simp only [Task.cellsToProcessY]
    omega

theorem workRect_width (t : Task) (hv : t.valid) :
    t.workRect.endX = t.workRect.startX + t.cellsToProcessX := by
  obtain ⟨sx, sy, v, pr, rr⟩ := t
  obtain ⟨-, -, -, -, hres⟩ := hv
  cases rr with
  | none => simp [Task.workRect, Task.cellsToProcessX]
  | some r =>
    simp only [Option.elim, Restriction.wellFormed] at hres
    simp only [Task.workRect, Task.cellsToProcessX]
    omega

theorem workRect_height (t : Task) (hv : t.valid) :
    t.workRect.endY = t.workRect.startY + t.cellsToProcessY := by
  obtain ⟨sx, sy, v, pr, rr⟩ := t
  obtain ⟨-, -, -, -, hres⟩ := hv
  cases rr with
  | none => simp [Task.workRect, Task.cellsToProcessY]
  | some r =>
    simp only [Option.elim, Restriction.wellFormed] at hres
    simp only [Task.workRect, Task.cellsToProcessY]
    omega

/-- The per-axis cover inequalities for the tiling actually computed by
`setTiling` on a valid task. -/
theorem setTiling_bounds (t : Task) (tts : Nat) (hv : t.valid) :
    0 < (t.setTiling tts).1.tilesPerRow ∧
    0 < (t.setTiling tts).1.cellsPerTileX ∧
    ((t.setTiling tts).1.tilesPerRow - 1) * (t.setTiling tts).1.cellsPerTileX <
      t.cellsToProcessX ∧
    t.cellsToProcessX ≤
      (t.setTiling tts).1.tilesPerRow * (t.setTiling tts).1.cellsPerTileX ∧
    0 < (t.setTiling tts).1.tilesPerColumn ∧
    0 < (t.setTiling tts).1.cellsPerTileY ∧
    ((t.setTiling tts).1.tilesPerColumn - 1) * (t.setTiling tts).1.cellsPerTileY <
      t.cellsToProcessY ∧
    t.cellsToProcessY ≤
      (t.setTiling tts).1.tilesPerColumn * (t.setTiling tts).1.cellsPerTileY := by
  have hcpt : 0 < t.targetCellsPerTile tts :=
    targetCellsPerTile_pos t tts hv.2.2.1 hv.2.2.2.1
  have hX : 0 < t.cellsToProcessX := cellsToProcessX_pos t hv
  have hY : 0 < t.cellsToProcessY := cellsToProcessY_pos t hv
  have hBX := tiling_bounds t.cellsToProcessX (t.targetCellsPerTile tts) hX hcpt
  have hrowpos : 0 < divideRoundingUp (t.targetCellsPerTile tts)
      ((t.setTiling tts).1.cellsPerTileX) := by
    apply divideRoundingUp_pos _ _ hcpt
    rw [setTiling_cellsPerTileX, setTiling_tilesPerRow]
    exact hBX.2.1
  have hBY := tiling_bounds t.cellsToProcessY
    (divideRoundingUp (t.targetCellsPerTile tts) ((t.setTiling tts).1.cellsPerTileX))
    hY hrowpos
  rw [setTiling_cellsPerTileY, setTiling_tilesPerColumn,
    setTiling_cellsPerTileX, setTiling_tilesPerRow]
  rw [setTiling_cellsPerTileX, setTiling_tilesPerRow] at hBY
  exact ⟨hBX.1, hBX.2.1, hBX.2.2.1, hBX.2.2.2,
    hBY.1, hBY.2.1, hBY.2.2.1, hBY.2.2.2⟩

/-- Arithmetic core of the partition property: on a working rectangle of
origin `(sW, sH)` and extent `X × Y`, a grid of `n × m` tiles of extent
`cX × cY` satisfying the per-axis cover inequalities assigns every cell to
exactly one tile index below `n * m`. -/
theorem partition_core (sW sH X Y n m cX cY x y : Nat)
    (hn0 : 0 < n) (hcX0 : 0 < cX) (hlastX : (n - 1) * cX < X) (hcovX : X ≤ n * cX)
    (hm0 : 0 < m) (hcY0 : 0 < cY) (hlastY : (m - 1) * cY < Y) (hcovY : Y ≤ m * cY)
    (hx1 : sW ≤ x) (hx2 : x < sW + X) (hy1 : sH ≤ y) (hy2 : y < sH + Y) :
    ∃! i, i < n * m ∧
      (sW + i % n * cX ≤ x ∧ x < min (sW + i % n * cX + cX) (sW + X) ∧
       sH + i / n * cY ≤ y ∧ y < min (sH + i / n * cY + cY) (sH + Y)) := by
  set u := x - sW with hud
  set v := y - sH with hvd
  have hu : u < X := by omega
  have hw : v < Y := by omega
  have htx : u / cX < n := by rw [Nat.div_lt_iff_lt_mul hcX0]; omega
  have hty : v / cY < m := by rw [Nat.div_lt_iff_lt_mul hcY0]; omega
  have hux1 : u / cX * cX ≤ u := Nat.div_mul_le_self u cX
  have hux2 : u < (u / cX + 1) * cX := (Nat.div_lt_iff_lt_mul hcX0).1 (Nat.lt_succ_self _)
  have hvy1 : v / cY * cY ≤ v := Nat.div_mul_le_self v cY
  have hvy2 : v < (v / cY + 1) * cY := (Nat.div_lt_iff_lt_mul hcY0).1 (Nat.lt_succ_self _)
  have hre1 : (u / cX + 1) * cX = u / cX * cX + cX := by ring
  have hre2 : (v / cY + 1) * cY = v / cY * cY + cY := by ring
  have hmod : (u / cX + n * (v / cY)) % n = u / cX := by
    rw [Nat.add_mul_mod_self_left, Nat.mod_eq_of_lt htx]
  have hdiv : (u / cX + n * (v / cY)) / n = v / cY := by
    rw [Nat.add_mul_div_left _ _ hn0, Nat.div_eq_of_lt htx, Nat.zero_add]
  refine ⟨u / cX + n * (v / cY), ⟨?_, ?_, ?_, ?_, ?_⟩, ?_⟩
  · have h1 : n * (v / cY + 1) ≤ n * m := Nat.mul_le_mul (Nat.le_refl n) hty
    have h2 : n * (v / cY + 1) = n * (v / cY) + n := by ring
    omega
  · rw [hmod]; omega
  · rw [hmod, Nat.lt_min]; omega
  · rw [hdiv]; omega
  · rw [hdiv, Nat.lt_min]; omega
  · rintro j ⟨hj, hjA, hjB, hjC, hjD⟩
    rw [Nat.lt_min] at hjB hjD
    have hrj1 : (j % n + 1) * cX = j % n * cX + cX := by ring
    have hrj2 : (j / n + 1) * cY = j / n * cY + cY := by ring
    have hjx : j % n = u / cX :=
      interval_unique cX u (j % n) (by omega) (by omega)
    have hjy : j / n = v / cY :=
      interval_unique cY v (j / n) (by omega) (by omega)
    have hd := Nat.div_add_mod j n
    rw [hjx, hjy] at hd
    omega

/-- C1: for every valid task and every target tile size, the true tile
rectangles (before any one-row collapse) for tile indices
`0 .. setTiling(targetTileSizeInBytes) - 1` exactly partition the working
rectangle: every cell of the working rectangle lies in exactly one tile
rectangle, and no tile rectangle contains a cell outside the working
rectangle. -/
theorem C1_tiles_partition (t : Task) (tts : Nat) (hv : t.valid) :
    (∀ x y, inRect t.workRect x y →
        ∃! i, i < (t.setTiling tts).2 ∧
          inRect (t.tileRectWith (t.setTiling tts).1 i) x y) ∧
    (∀ i, i < (t.setTiling tts).2 → ∀ x y,
        inRect (t.tileRectWith (t.setTiling tts).1 i) x y →
          inRect t.workRect x y) := by
  obtain ⟨hn0, hcX0, hlastX, hcovX, hm0, hcY0, hlastY, hcovY⟩ :=
    setTiling_bounds t tts hv
  have heW := workRect_width t hv
  have heH := workRect_height t hv
  constructor
  · intro x y hxy
    simp only [inRect, heW, heH] at hxy
    simp only [inRect, tileRectWith_startX, tileRectWith_endX, tileRectWith_startY,
      tileRectWith_endY, setTiling_count, heW, heH]
    exact partition_core _ _ _ _ _ _ _ _ x y hn0 hcX0 hlastX hcovX hm0 hcY0
      hlastY hcovY hxy.1 hxy.2.1 hxy.2.2.1 hxy.2.2.2
  · intro i hi x y hxy
    simp only [inRect, tileRectWith_startX, tileRectWith_endX, tileRectWith_startY,
      tileRectWith_endY] at hxy
    simp only [inRect]
    obtain ⟨h1, h2, h3, h4⟩ := hxy
    rw [Nat.lt_min] at h2 h4
    exact ⟨by omega, by omega, by omega, by omega⟩

/-- Arithmetic core of tile non-degeneracy: every tile index below `n * m`
yields a rectangle with a start corner strictly inside the working
rectangle and positive extent in both directions. -/
theorem tile_nondegenerate_core (sW sH X Y n m cX cY i : Nat)
    (hn0 : 0 < n) (hcX0 : 0 < cX) (hlastX : (n - 1) * cX < X)
    (hm0 : 0 < m) (hcY0 : 0 < cY) (hlastY : (m - 1) * cY < Y)
    (hi : i < n * m) :
    sW + i % n * cX < min (sW + i % n * cX + cX) (sW + X) ∧
    sH + i / n * cY < min (sH + i / n * cY + cY) (sH + Y) ∧
    (sW ≤ sW + i % n * cX ∧ sW + i % n * cX < sW + X ∧
     sH ≤ sH + i / n * cY ∧ sH + i / n * cY < sH + Y) := by
  have htx : i % n < n := Nat.mod_lt i hn0
  have hty : i / n < m := by
    rw [Nat.div_lt_iff_lt_mul hn0]
    have := Nat.mul_comm n m
    omega
  have h1 : i % n * cX ≤ (n - 1) * cX := Nat.mul_le_mul (by omega) (Nat.le_refl cX)
  have h2 : i / n * cY ≤ (m - 1) * cY := Nat.mul_le_mul (by omega) (Nat.le_refl cY)
  simp only [Nat.lt_min]
  omega

/-- C10: for every valid task and every tile index strictly below the value
returned by `setTiling`, the rectangle computed in `processTile` is
non-degenerate — `startCellX < endCellX`, `startCellY < endCellY` — and its
start corner lies inside the working rectangle, so the clipping `min()`
never produces `end < start`. -/
theorem C10_tiles_nondegenerate (t : Task) (tts : Nat) (hv : t.valid) (i : Nat)
    (hi : i < (t.setTiling tts).2) :
    (t.tileRectWith (t.setTiling tts).1 i).startX <
      (t.tileRectWith (t.setTiling tts).1 i).endX ∧
    (t.tileRectWith (t.setTiling tts).1 i).startY <
      (t.tileRectWith (t.setTiling tts).1 i).endY ∧
    inRect t.workRect (t.tileRectWith (t.setTiling tts).1 i).startX
      (t.tileRectWith (t.setTiling tts).1 i).startY := by
  obtain ⟨hn0, hcX0, hlastX, hcovX, hm0, hcY0, hlastY, hcovY⟩ :=
    setTiling_bounds t tts hv
  have heW := workRect_width t hv
  have heH := workRect_height t hv
  rw [setTiling_count] at hi
  simp only [inRect, tileRectWith_startX, tileRectWith_endX, tileRectWith_startY,
    tileRectWith_endY, heW, heH]
  exact tile_nondegenerate_core _ _ _ _ _ _ _ _ i hn0 hcX0 hlastX hm0 hcY0 hlastY hi

/-! ### The one-row collapse in `processTile` -/

theorem processTile_collapse (t : Task) (til : Tiling) (i : Nat)
    (h : t.prefersDataAsOneRow = true ∧ (t.tileRectWith til i).startX = 0 ∧
      (t.tileRectWith til i).endX = t.sizeX) :
    t.processTile til i =
      ⟨0, (t.tileRectWith til i).startY,
       t.sizeX * ((t.tileRectWith til i).endY - (t.tileRectWith til i).startY),
       (t.tileRectWith til i).startY + 1⟩ := by
  simp only [Task.processTile]
  rw [if_pos h]

theorem processTile_noCollapse (t : Task) (til : Tiling) (i : Nat)
    (h : ¬(t.prefersDataAsOneRow = true ∧ (t.tileRectWith til i).startX = 0 ∧
      (t.tileRectWith til i).endX = t.sizeX)) :
    t.processTile til i = t.tileRectWith til i := by
  simp only [Task.processTile]
  rw [if_neg h]

/-- C3: for every tile whose true rectangle satisfies `prefersOneRow`,
`startX == 0` and `endX == sizeX` (the full grid width), the callback is
invoked with the collapsed arguments
`(0, startY, sizeX * (endY - startY), startY + 1)`, i.e. `y1 = y0 + 1` and
x bounds `[0, sizeX * rows)`; in every other case the callback receives the
true end-exclusive 2D rectangle. -/
theorem C3_row_collapse (t : Task) (til : Tiling) (i : Nat) :
    (t.prefersDataAsOneRow = true → (t.tileRectWith til i).startX = 0 →
      (t.tileRectWith til i).endX = t.sizeX →
      t.processTile til i =
        ⟨0, (t.tileRectWith til i).startY,
         t.sizeX * ((t.tileRectWith til i).endY - (t.tileRectWith til i).startY),
         (t.tileRectWith til i).startY + 1⟩) ∧
    (¬(t.prefersDataAsOneRow = true ∧ (t.tileRectWith til i).startX = 0 ∧
        (t.tileRectWith til i).endX = t.sizeX) →
      t.processTile til i = t.tileRectWith til i) :=
  ⟨fun hp h0 hX => processTile_collapse t til i ⟨hp, h0, hX⟩,
   fun h => processTile_noCollapse t til i h⟩

/-- Witness for C3: a full-width tile of a 4×4 grid with `prefersOneRow` set
is collapsed to one logical row of 16 cells. -/
theorem C3_row_collapse_witness :
    Task.processTile ⟨4, 4, 1, true, none⟩ ⟨4, 4, 1, 1⟩ 0 = ⟨0, 0, 16, 1⟩ :=
  (C3_row_collapse ⟨4, 4, 1, true, none⟩ ⟨4, 4, 1, 1⟩ 0).1 rfl rfl rfl

/-! ### The spec's formulas for `setTiling` (claim C2) -/

/-- Ceiling division as the specification writes it. -/
def ceilDiv (a b : Nat) : Nat := (a + b - 1) / b

theorem ceilDiv_eq_divideRoundingUp (a b : Nat) (hb : 0 < b) :
    ceilDiv a b = divideRoundingUp a b := by
  rw [divideRoundingUp_eq_ceil a b hb]; rfl

/-- The tiling computation exactly as §4.1 of the specification states it:
`cellsPerTarget = max(1000, targetTileBytes) / cellSize`, then five ceiling
divisions over the working rectangle's width and height. -/
def Task.setTilingSpec (t : Task) (tts : Nat) : Tiling × Nat :=
  let cellsPerTarget := max 1000 tts / t.vectorSize
  let workWidth := t.workRect.endX - t.workRect.startX
  let workHeight := t.workRect.endY - t.workRect.startY
  let tilesPerRow := ceilDiv workWidth cellsPerTarget
  let cellsPerTileX := ceilDiv workWidth tilesPerRow
  let targetRowsPerTile := ceilDiv cellsPerTarget cellsPerTileX
  let tilesPerColumn := ceilDiv workHeight targetRowsPerTile
  let cellsPerTileY := ceilDiv workHeight tilesPerColumn
  (⟨cellsPerTileX, cellsPerTileY, tilesPerRow, tilesPerColumn⟩,
   tilesPerRow * tilesPerColumn)

/-- C2: on a valid task, `setTiling` computes exactly the spec's formulas —
`cellsPerTarget = max(1000, targetTileSizeInBytes) / cellSize` (positive, as
asserted), `tilesPerRow = ceil(W / cellsPerTarget)`,
`cellsPerTileX = ceil(W / tilesPerRow)`,
`targetRowsPerTile = ceil(cellsPerTarget / cellsPerTileX)`,
`tilesPerColumn = ceil(H / targetRowsPerTile)`,
`cellsPerTileY = ceil(H / tilesPerColumn)` — and returns
`tilesPerRow * tilesPerColumn`. -/
theorem C2_setTiling_formulas (t : Task) (tts : Nat) (hv : t.valid) :
    0 < max 1000 tts / t.vectorSize ∧ t.setTiling tts = t.setTilingSpec tts := by
  have hcpt : 0 < t.targetCellsPerTile tts :=
    targetCellsPerTile_pos t tts hv.2.2.1 hv.2.2.2.1
  have hX : 0 < t.cellsToProcessX := cellsToProcessX_pos t hv
  have hY : 0 < t.cellsToProcessY := cellsToProcessY_pos t hv
  have hW : t.workRect.endX - t.workRect.startX = t.cellsToProcessX := by
    rw [workRect_width t hv]; omega
  have hH : t.workRect.endY - t.workRect.startY = t.cellsToProcessY := by
    rw [workRect_height t hv]; omega
  refine ⟨hcpt, ?_⟩
  have hcpt2 : 0 < max 1000 tts / t.vectorSize := hcpt
  unfold Task.setTiling Task.setTilingSpec Task.targetCellsPerTile
  simp only [hW, hH]
  have hn0 : 0 < divideRoundingUp t.cellsToProcessX (max 1000 tts / t.vectorSize) :=
    divideRoundingUp_pos _ _ hX hcpt
  have hcX0 : 0 < divideRoundingUp t.cellsToProcessX
      (divideRoundingUp t.cellsToProcessX (max 1000 tts / t.vectorSize)) :=
    divideRoundingUp_pos _ _ hX hn0
  have htrpt : 0 < divideRoundingUp (max 1000 tts / t.vectorSize)
      (divideRoundingUp t.cellsToProcessX
        (divideRoundingUp t.cellsToProcessX (max 1000 tts / t.vectorSize))) :=
    divideRoundingUp_pos _ _ hcpt hcX0
  have hm0 : 0 < divideRoundingUp t.cellsToProcessY
      (divideRoundingUp (max 1000 tts / t.vectorSize)
        (divideRoundingUp t.cellsToProcessX
          (divideRoundingUp t.cellsToProcessX (max 1000 tts / t.vectorSize)))) :=
    divideRoundingUp_pos _ _ hY htrpt
  rw [ceilDiv_eq_divideRoundingUp _ _ hcpt2,
    ceilDiv_eq_divideRoundingUp _ _ hn0,
    ceilDiv_eq_divideRoundingUp _ _ hcX0,
    ceilDiv_eq_divideRoundingUp _ _ htrpt,
    ceilDiv_eq_divideRoundingUp _ _ hm0]

/-- Witness for C2 at the spec's own example grid. -/
theorem C2_setTiling_formulas_witness :
    0 < max 1000 1000 / 4 ∧
    Task.setTiling ⟨100, 50, 4, false, none⟩ 1000 =
      Task.setTilingSpec ⟨100, 50, 4, false, none⟩ 1000 :=
  C2_setTiling_formulas ⟨100, 50, 4, false, none⟩ 1000 (by decide)

/-- C4: spec §8 example 1 — grid 100×50, `cellSize = 4`, no restriction,
`targetTileBytes = 1000`: 17 tiles in a 1×17 layout with
`cellsPerTileX = 100`, and the last tile (index 16) covers exactly rows
48..49 of the full width. -/
theorem C4_example_grid :
    (Task.setTiling ⟨100, 50, 4, false, none⟩ 1000).2 = 17 ∧
    (Task.setTiling ⟨100, 50, 4, false, none⟩ 1000).1.tilesPerRow = 1 ∧
    (Task.setTiling ⟨100, 50, 4, false, none⟩ 1000).1.cellsPerTileX = 100 ∧
    (Task.setTiling ⟨100, 50, 4, false, none⟩ 1000).1.tilesPerColumn = 17 ∧
    Task.tileRectWith ⟨100, 50, 4, false, none⟩
      (Task.setTiling ⟨100, 50, 4, false, none⟩ 1000).1 16 = ⟨0, 48, 100, 50⟩ := by
  decide

/-- C5: a 1×1 grid with any `vectorSize` in `[1, 4]` and any target tile
size yields exactly one tile. -/
theorem C5_1x1_grid (v tts : Nat) (p : Bool) (h1 : 1 ≤ v) (h4 : v ≤ 4) :
    (Task.setTiling ⟨1, 1, v, p, none⟩ tts).2 = 1 := by
  have hcpt : 0 < max 1000 tts / v :=
    Nat.div_pos (le_trans h4 (le_trans (by omega) (Nat.le_max_left 1000 tts))) h1
  have hn : divideRoundingUp 1 (max 1000 tts / v) = 1 := by
    have hle := divideRoundingUp_le_iff 1 (max 1000 tts / v) 1 hcpt
    have hlt := lt_divideRoundingUp_iff 1 (max 1000 tts / v) 0 hcpt
    have e1 : max 1000 tts / v * 1 = max 1000 tts / v := Nat.mul_one _
    have e0 : max 1000 tts / v * 0 = 0 := Nat.mul_zero _
    omega
  show divideRoundingUp 1 (max 1000 tts / v) *
      divideRoundingUp 1
        (divideRoundingUp (max 1000 tts / v)
          (divideRoundingUp 1 (divideRoundingUp 1 (max 1000 tts / v)))) = 1
  rw [hn]
  rw [show divideRoundingUp 1 1 = 1 from rfl, divideRoundingUp_one, hn]

/-- Witness for C5. -/
theorem C5_1x1_grid_witness : (Task.setTiling ⟨1, 1, 1, false, none⟩ 0).2 = 1 :=
  C5_1x1_grid 1 0 false (by decide) (by decide)

/-- C6: with the restriction `{startX=10, endX=20, startY=0, endY=5}` on a
100×100 grid, every callback rectangle produced by `processTile` — for any
`cellSize` in `[1, 4]`, any target size, any `prefersOneRow` value and any
tile index below the `setTiling` count — lies wholly inside
`[10, 20) × [0, 5)`. -/
theorem C6_restriction_bounds (v tts : Nat) (p : Bool) (i x y : Nat)
    (h1 : 1 ≤ v) (h4 : v ≤ 4)
    (hi : i < (Task.setTiling ⟨100, 100, v, p, some ⟨10, 20, 0, 5⟩⟩ tts).2)
    (hxy : inRect
      (Task.processTile ⟨100, 100, v, p, some ⟨10, 20, 0, 5⟩⟩
        (Task.setTiling ⟨100, 100, v, p, some ⟨10, 20, 0, 5⟩⟩ tts).1 i) x y) :
    10 ≤ x ∧ x < 20 ∧ y < 5 := by
  have hw : Task.workRect ⟨100, 100, v, p, some ⟨10, 20, 0, 5⟩⟩ = ⟨10, 0, 20, 5⟩ := rfl
  have hpt : Task.processTile ⟨100, 100, v, p, some ⟨10, 20, 0, 5⟩⟩
      (Task.setTiling ⟨100, 100, v, p, some ⟨10, 20, 0, 5⟩⟩ tts).1 i =
      Task.tileRectWith ⟨100, 100, v, p, some ⟨10, 20, 0, 5⟩⟩
        (Task.setTiling ⟨100, 100, v, p, some ⟨10, 20, 0, 5⟩⟩ tts).1 i := by
    apply processTile_noCollapse
    rintro ⟨-, h0, -⟩
    rw [tileRectWith_startX] at h0
    simp only [hw] at h0
    omega
  rw [hpt] at hxy
  simp only [inRect, tileRectWith_startX, tileRectWith_endX, tileRectWith_startY,
    tileRectWith_endY, hw, Nat.lt_min] at hxy
  omega

/-- Witness for C6: the single tile of the restricted task is `[10,20)×[0,5)`
and contains the cell `(15, 2)`. -/
theorem C6_restriction_bounds_witness : 10 ≤ 15 ∧ 15 < 20 ∧ 2 < 5 :=
  C6_restriction_bounds 1 0 false 0 15 2 (by decide) (by decide) (by decide) (by decide)

/-! ### Thread counts (claim C7) -/

/-- `TaskProcessor::TaskProcessor` (TaskProcessor.cpp lines 100-116):
`mNumberOfPoolThreads = numThreads ? numThreads - 1
: std::min(6u, std::thread::hardware_concurrency() - 1)`.  All values are
32-bit unsigned; `hardware_concurrency() - 1` wraps modulo `2 ^ 32` when the
reported concurrency is 0, modelled here as `(hc + (2 ^ 32 - 1)) % 2 ^ 32`.
The branch `numThreads - 1` is evaluated only for `numThreads >= 1` and
cannot wrap. -/
def numberOfPoolThreads (numThreads hardwareConcurrency : Nat) : Nat :=
  if numThreads ≠ 0 then numThreads - 1
  else min 6 ((hardwareConcurrency + (2 ^ 32 - 1)) % 2 ^ 32)

/-- `TaskProcessor.h` line 257: `getNumberOfThreads()` returns
`mNumberOfPoolThreads + 1`. -/
def getNumberOfThreads (numThreads hardwareConcurrency : Nat) : Nat :=
  numberOfPoolThreads numThreads hardwareConcurrency + 1

/-- C7: with `numThreads = 0` the pool size is
`min(6, hardware_concurrency - 1)` in wrapping unsigned arithmetic (so a
reported concurrency of 0 gives `min 6 (2^32 - 1) = 6` pool threads, not 0);
with `numThreads > 0` it is `numThreads - 1`; and `getNumberOfThreads`
always returns the pool size plus one. -/
theorem C7_thread_counts (numThreads hc : Nat)
    (hn : numThreads < 2 ^ 32) (hh : hc < 2 ^ 32) :
    (numThreads = 0 →
      numberOfPoolThreads numThreads hc = min 6 ((hc + (2 ^ 32 - 1)) % 2 ^ 32)) ∧
    (0 < numThreads → numberOfPoolThreads numThreads hc = numThreads - 1) ∧
    getNumberOfThreads numThreads hc = numberOfPoolThreads numThreads hc + 1 ∧
    numberOfPoolThreads 0 0 = 6 := by
  refine ⟨fun h0 => ?_, fun hp => ?_, rfl, by decide⟩
  · unfold numberOfPoolThreads
    rw [if_neg (by omega)]
  · unfold numberOfPoolThreads
    rw [if_pos (by omega)]

/-- Witness for C7 at `numThreads = 0`, `hardware_concurrency = 0`. -/
theorem C7_thread_counts_witness :
    ((0 : Nat) = 0 →
      numberOfPoolThreads 0 0 = min 6 ((0 + (2 ^ 32 - 1)) % 2 ^ 32)) ∧
    (0 < (0 : Nat) → numberOfPoolThreads 0 0 = 0 - 1) ∧
    getNumberOfThreads 0 0 = numberOfPoolThreads 0 0 + 1 ∧
    numberOfPoolThreads 0 0 = 6 :=
  C7_thread_counts 0 0 (by decide) (by decide)

/-- Witness for C1 at the spec's example grid and the cell `(5, 7)`. -/
theorem C1_tiles_partition_witness :
    ∃! i, i < (Task.setTiling ⟨100, 50, 4, false, none⟩ 1000).2 ∧
      inRect (Task.tileRectWith ⟨100, 50, 4, false, none⟩
        (Task.setTiling ⟨100, 50, 4, false, none⟩ 1000).1 i) 5 7 :=
  (C1_tiles_partition ⟨100, 50, 4, false, none⟩ 1000 (by decide)).1 5 7 (by decide)

/-- Witness for C10 at the spec's example grid, last tile. -/
theorem C10_tiles_nondegenerate_witness :
    (Task.tileRectWith ⟨100, 50, 4, false, none⟩
        (Task.setTiling ⟨100, 50, 4, false, none⟩ 1000).1 16).startX <
      (Task.tileRectWith ⟨100, 50, 4, false, none⟩
        (Task.setTiling ⟨100, 50, 4, false, none⟩ 1000).1 16).endX ∧
    (Task.tileRectWith ⟨100, 50, 4, false, none⟩
        (Task.setTiling ⟨100, 50, 4, false, none⟩ 1000).1 16).startY <
      (Task.tileRectWith ⟨100, 50, 4, false, none⟩
        (Task.setTiling ⟨100, 50, 4, false, none⟩ 1000).1 16).endY ∧
    inRect (Task.workRect ⟨100, 50, 4, false, none⟩)
      (Task.tileRectWith ⟨100, 50, 4, false, none⟩
        (Task.setTiling ⟨100, 50, 4, false, none⟩ 1000).1 16).startX
      (Task.tileRectWith ⟨100, 50, 4, false, none⟩
        (Task.setTiling ⟨100, 50, 4, false, none⟩ 1000).1 16).startY :=
  C10_tiles_nondegenerate ⟨100, 50, 4, false, none⟩ 1000 (by decide) 16 (by decide)

/-! ### The scheduler as a transition system (claims C8 and C9)

`TaskProcessor::doTask` holds `mTaskMutex` for its whole body; under
`mQueueMutex` it sets `mTilesNotYetStarted = task->setTiling(16 * 1024)`,
then every participating thread repeatedly claims `myTile =
--mTilesNotYetStarted`, increments `mTilesInProcess`, drops the queue lock,
runs `mCurrentTask->processTile(threadIndex, myTile)`, retakes the lock and
decrements `mTilesInProcess`; `doTask` returns once
`waitForPoolWorkersToComplete` sees both counters at zero and then releases
`mTaskMutex`.  Because every mutation of the two counters happens under
`mQueueMutex`, the concurrent execution is an interleaving of the atomic
steps below.  Each `doTask` call is named by a fresh run id so that callback
invocations can be attributed to the task they belong to. -/

/-- One entry of the observable callback trace: the run (`doTask` call) it
belongs to, the tile index, and whether this is the return (`true`) or the
invocation (`false`) of `processTile`. -/
structure Event where
  run : Nat
  tile : Nat
  done : Bool
deriving DecidableEq

/-- The mutex-protected scheduler state.  `lockHeld` models `mTaskMutex`
being held by some `doTask` call, `runId` names that call, `tileCount` is
the value `setTiling` returned for it, `tilesNotYetStarted` and `inFlight`
model `mTilesNotYetStarted` and the multiset of tiles counted by
`mTilesInProcess`, `processed` the tiles whose callback has returned during
the current run, and `trace` the full callback event history. -/
structure SchedState where
  lockHeld : Bool
  runId : Nat
  nextRun : Nat
  tileCount : Nat
  tilesNotYetStarted : Nat
  inFlight : List Nat
  processed : List Nat
  trace : List Event
deriving DecidableEq

/-- The scheduler before any `doTask` call. -/
def schedInit : SchedState := ⟨false, 0, 0, 0, 0, [], [], []⟩

/-- The atomic steps of the scheduler, one constructor per mutex-protected
region of `TaskProcessor.cpp`. -/
inductive SchedStep : SchedState → SchedState → Prop
  /-- `doTask` acquires `mTaskMutex` (only possible when no other call holds
  it), stores `mCurrentTask`, and `startWork` sets `mTilesNotYetStarted :=
  task->setTiling(16 * 1024)` under `mQueueMutex` (lines 180-186, 193-207;
  `assert(mTilesInProcess == 0)` and the previous run left the counter at
  zero).  The call is named by the fresh run id `nextRun`. -/
  | start (s : SchedState) (task : Task) (hfree : s.lockHeld = false)
      (hidle : s.inFlight = []) (hnone : s.tilesNotYetStarted = 0) :
      SchedStep s ⟨true, s.nextRun, s.nextRun + 1, (task.setTiling (16 * 1024)).2,
        (task.setTiling (16 * 1024)).2, [], [], s.trace⟩
  /-- A participating thread claims `myTile = --mTilesNotYetStarted`,
  increments `mTilesInProcess`, releases `mQueueMutex` and invokes
  `processTile` (lines 156-167). -/
  | grab (s : SchedState) (hwork : 0 < s.tilesNotYetStarted) :
      SchedStep s ⟨s.lockHeld, s.runId, s.nextRun, s.tileCount,
        s.tilesNotYetStarted - 1, (s.tilesNotYetStarted - 1) :: s.inFlight,
        s.processed, s.trace ++ [⟨s.runId, s.tilesNotYetStarted - 1, false⟩]⟩
  /-- A thread's `processTile` call returns and it decrements
  `mTilesInProcess` under `mQueueMutex` (lines 168-172). -/
  | finish (s : SchedState) (l₁ l₂ : List Nat) (tile : Nat)
      (hin : s.inFlight = l₁ ++ tile :: l₂) :
      SchedStep s ⟨s.lockHeld, s.runId, s.nextRun, s.tileCount,
        s.tilesNotYetStarted, l₁ ++ l₂, tile :: s.processed,
        s.trace ++ [⟨s.runId, tile, true⟩]⟩
  /-- `doTask` returns: `waitForPoolWorkersToComplete`'s predicate
  `mTilesNotYetStarted == 0 && mTilesInProcess == 0` holds (lines 209-217),
  `mCurrentTask` is cleared and `mTaskMutex` released (lines 188-191). -/
  | complete (s : SchedState) (hheld : s.lockHeld = true)
      (hnone : s.tilesNotYetStarted = 0) (hidle : s.inFlight = []) :
      SchedStep s ⟨false, s.runId, s.nextRun, s.tileCount,
        s.tilesNotYetStarted, s.inFlight, s.processed, s.trace⟩

/-- States the scheduler can reach from its initial state. -/
def Reachable (s : SchedState) : Prop :=
  Relation.ReflTransGen SchedStep schedInit s

/-- Invariant maintained by every scheduler step: the processed and
in-flight tiles of the current run are, with multiplicity, exactly the tile
indices already claimed off the counter, and the callback trace is grouped
by monotonically increasing run ids. -/
structure SchedInv (s : SchedState) : Prop where
  tiles_le : s.tilesNotYetStarted ≤ s.tileCount
  perm : (s.processed ++ s.inFlight).Perm
    (List.range' s.tilesNotYetStarted (s.tileCount - s.tilesNotYetStarted))
  idle_of_unlocked : s.lockHeld = false → s.tilesNotYetStarted = 0 ∧ s.inFlight = []
  trace_sorted : s.trace.Pairwise (fun a b => a.run ≤ b.run)
  trace_le_run : ∀ e ∈ s.trace, s.lockHeld = true → e.run ≤ s.runId
  trace_lt_next : ∀ e ∈ s.trace, e.run < s.nextRun
  run_lt_next : s.lockHeld = true → s.runId < s.nextRun

theorem schedInv_init : SchedInv schedInit := by
  constructor <;> simp [schedInit, List.range']

theorem schedInv_step (s s' : SchedState) (h : SchedInv s) (hs : SchedStep s s') :
    SchedInv s' := by
  cases hs with
  | start task hfree hidle hnone =>
    refine ⟨?_, ?_, ?_, ?_, ?_, ?_, ?_⟩ <;> dsimp only
    · exact Nat.le_refl _
    · rw [Nat.sub_self]
      exact List.Perm.nil
    · intro hb
      simp at hb
    · exact h.trace_sorted
    · exact fun e he _ => Nat.le_of_lt (h.trace_lt_next e he)
    · exact fun e he => Nat.lt_succ_of_lt (h.trace_lt_next e he)
    · exact fun _ => Nat.lt_succ_self _
  | grab hwork =>
    have hlock : s.lockHeld = true := by
      rcases Bool.eq_false_or_eq_true s.lockHeld with hb | hb
      · exact hb
      · have := (h.idle_of_unlocked hb).1
        omega
    refine ⟨?_, ?_, ?_, ?_, ?_, ?_, ?_⟩ <;> dsimp only
    · have := h.tiles_le
      omega
    · have h1 : s.tileCount - (s.tilesNotYetStarted - 1) =
          (s.tileCount - s.tilesNotYetStarted) + 1 := by
        have := h.tiles_le
        omega
      have h2 : s.tilesNotYetStarted - 1 + 1 = s.tilesNotYetStarted := by omega
      rw [h1, List.range'_succ, h2]
      exact List.perm_middle.trans ((h.perm).cons _)
    · intro hb
      rw [hlock] at hb
      simp at hb
    · rw [List.pairwise_append]
      refine ⟨h.trace_sorted, List.pairwise_singleton _ _, ?_⟩
      intro a ha b hb
      simp only [List.mem_singleton] at hb
      subst hb
      exact h.trace_le_run a ha hlock
    · intro e he _
      rw [List.mem_append, List.mem_singleton] at he
      rcases he with he | he
      · exact h.trace_le_run e he hlock
      · subst he
        exact Nat.le_refl _
    · intro e he
      rw [List.mem_append, List.mem_singleton] at he
      rcases he with he | he
      · exact h.trace_lt_next e he
      · subst he
        exact h.run_lt_next hlock
    · exact fun _ => h.run_lt_next hlock
  | finish l₁ l₂ tile hin =>
    have hlock : s.lockHeld = true := by
      rcases Bool.eq_false_or_eq_true s.lockHeld with hb | hb
      · exact hb
      · have h2 := (h.idle_of_unlocked hb).2
        rw [hin] at h2
        simp at h2
    refine ⟨?_, ?_, ?_, ?_, ?_, ?_, ?_⟩ <;> dsimp only
    · exact h.tiles_le
    · have hp := h.perm
      rw [hin, show s.processed ++ (l₁ ++ tile :: l₂) =
        (s.processed ++ l₁) ++ tile :: l₂ from (List.append_assoc _ _ _).symm] at hp
      rw [show (tile :: s.processed) ++ (l₁ ++ l₂) =
        tile :: ((s.processed ++ l₁) ++ l₂) from by simp [List.append_assoc]]
      exact List.perm_middle.symm.trans hp
    · intro hb
      rw [hlock] at hb
      simp at hb
    · rw [List.pairwise_append]
      refine ⟨h.trace_sorted, List.pairwise_singleton _ _, ?_⟩
      intro a ha b hb
      simp only [List.mem_singleton] at hb
      subst hb
      exact h.trace_le_run a ha hlock
    · intro e he _
      rw [List.mem_append, List.mem_singleton] at he
      rcases he with he | he
      · exact h.trace_le_run e he hlock
      · subst he
        exact Nat.le_refl _
    · intro e he
      rw [List.mem_append, List.mem_singleton] at he
      rcases he with he | he
      · exact h.trace_lt_next e he
      · subst he
        exact h.run_lt_next hlock
    · exact fun _ => h.run_lt_next hlock
  | complete hheld hnone hidle =>
    refine ⟨?_, ?_, ?_, ?_, ?_, ?_, ?_⟩ <;> dsimp only
    · exact h.tiles_le
    · exact h.perm
    · exact fun _ => ⟨hnone, hidle⟩
    · exact h.trace_sorted
    · intro e he hb
      simp at hb
    · exact h.trace_lt_next
    · intro hb
      simp at hb

theorem schedInv_of_reachable (s : SchedState) (h : Reachable s) : SchedInv s := by
  induction h with
  | refl => exact schedInv_init
  | tail hab hbc ih => exact schedInv_step _ _ ih hbc

/-- C8: whenever the scheduler reaches the state in which `doTask` is allowed
to return — `mTilesNotYetStarted == 0` and `mTilesInProcess == 0`, the
predicate of `waitForPoolWorkersToComplete` — the tiles whose callback has
completed during the run are, with multiplicity, exactly the tile indices
`0 .. tileCount - 1` with `tileCount = task->setTiling(16 * 1024)`: each
tile was passed to `processTile` exactly once across all participating
threads, and every such call has returned. -/
theorem C8_each_tile_exactly_once (s : SchedState) (h : Reachable s)
    (hheld : s.lockHeld = true) (hn : s.tilesNotYetStarted = 0)
    (hf : s.inFlight = []) :
    s.processed.Perm (List.range s.tileCount) ∧
    ∀ i, i < s.tileCount → s.processed.count i = 1 := by
  have hinv := schedInv_of_reachable s h
  have hp := hinv.perm
  rw [hn, hf, List.append_nil, Nat.sub_zero, ← List.range_eq_range'] at hp
  refine ⟨hp, fun i hi => ?_⟩
  rw [hp.count_eq]
  exact List.count_eq_one_of_mem (List.nodup_range _) (List.mem_range.mpr hi)

/-- C9: the run ids of the callback trace never interleave — if two events at
positions `i < j < k` have the first and last belonging to the same `doTask`
run, the middle one belongs to that run as well.  Together with the
freshness of run ids this is exactly the spec's serialization guarantee:
callback invocations of two different tasks never interleave, because
`doTask` holds the task-exclusivity mutex `mTaskMutex` for the whole call. -/
theorem C9_tasks_never_interleave (s : SchedState) (h : Reachable s)
    (i j k : Fin s.trace.length) (hij : i < j) (hjk : j < k)
    (hik : (s.trace.get i).run = (s.trace.get k).run) :
    (s.trace.get j).run = (s.trace.get i).run := by
  have hinv := schedInv_of_reachable s h
  have hs := hinv.trace_sorted
  rw [List.pairwise_iff_get] at hs
  have h1 := hs i j hij
  have h2 := hs j k hjk
  omega

/-- A 1 × 20000 grid of 1-byte cells gives `setTiling(16 * 1024) = 2` tiles. -/
def demoTask : Task := ⟨1, 20000, 1, false, none⟩

/-- The trace of a complete execution of `doTask demoTask`: both tiles are
claimed and both callbacks return. -/
def demoTrace : List Event :=
  [⟨0, 1, false⟩, ⟨0, 0, false⟩, ⟨0, 0, true⟩, ⟨0, 1, true⟩]

/-- The scheduler state at the end of that execution, just before `doTask`
returns. -/
def demoFinal : SchedState := ⟨true, 0, 1, 2, 0, [], [1, 0], demoTrace⟩

theorem demoFinal_reachable : Reachable demoFinal := by
  have h1 : SchedStep schedInit ⟨true, 0, 1, 2, 2, [], [], []⟩ :=
    SchedStep.start schedInit demoTask rfl rfl rfl
  have h2 : SchedStep ⟨true, 0, 1, 2, 2, [], [], []⟩
      ⟨true, 0, 1, 2, 1, [1], [], [⟨0, 1, false⟩]⟩ :=
    SchedStep.grab _ (by decide)
  have h3 : SchedStep ⟨true, 0, 1, 2, 1, [1], [], [⟨0, 1, false⟩]⟩
      ⟨true, 0, 1, 2, 0, [0, 1], [], [⟨0, 1, false⟩, ⟨0, 0, false⟩]⟩ :=
    SchedStep.grab _ (by decide)
  have h4 : SchedStep ⟨true, 0, 1, 2, 0, [0, 1], [], [⟨0, 1, false⟩, ⟨0, 0, false⟩]⟩
      ⟨true, 0, 1, 2, 0, [1], [0], [⟨0, 1, false⟩, ⟨0, 0, false⟩, ⟨0, 0, true⟩]⟩ :=
    SchedStep.finish _ [] [1] 0 rfl
  have h5 : SchedStep
      ⟨true, 0, 1, 2, 0, [1], [0], [⟨0, 1, false⟩, ⟨0, 0, false⟩, ⟨0, 0, true⟩]⟩
      demoFinal :=
    SchedStep.finish _ [] [] 1 rfl
  exact Relation.ReflTransGen.head h1 (Relation.ReflTransGen.head h2
    (Relation.ReflTransGen.head h3 (Relation.ReflTransGen.head h4
      (Relation.ReflTransGen.head h5 Relation.ReflTransGen.refl))))

/-- Witness for C8: at the end of the demo run, the completed tiles `[1, 0]`
are exactly the two tile indices, each once. -/
theorem C8_each_tile_exactly_once_witness :
    List.Perm [1, 0] (List.range 2) :=
  (C8_each_tile_exactly_once demoFinal demoFinal_reachable rfl rfl rfl).1

/-- Witness for C9 on the demo trace: its three first events carry the same
run id, so the non-interleaving theorem applies to positions 0 < 1 < 2. -/
theorem C9_tasks_never_interleave_witness :
    (demoTrace.get ⟨1, by decide⟩).run = (demoTrace.get ⟨0, by decide⟩).run :=
  C9_tasks_never_interleave demoFinal demoFinal_reachable
    ⟨0, by decide⟩ ⟨1, by decide⟩ ⟨2, by decide⟩
    (by decide) (by decide) (by decide)

end renderscript
